import Mathlib

/-!
Shallow embedding of `knack/config.py`: a layered configuration resolver
(`CLIConfig`) over a chain of INI-file-backed sources (`_ConfigFile`),
with environment-variable override.

Modelling conventions:
* Strings are Lean `String`s; the Python string operations used by the code
  (`upper`, `lower`, `split('_')`, prefix tests, `os.path` helpers) are
  re-implemented structurally over `String.data` so that all definitions
  evaluate by kernel reduction.
* The INI backing store (`configparser`) is out of scope of the repository
  (spec section 1 treats it as a pluggable key/value store); it is modelled
  as an association list of sections, each an association list of
  `(option, value)` pairs, with `get`/`set`/`items`/`has_option` and the
  no-section / no-option errors, keys used verbatim.
* The filesystem is an explicit `World` value (parsed file contents per
  path, plus the set of directories known to exist); stateful operations
  take and return a `World`.
* The process environment is an explicit association list passed to each
  reading operation.
-/

/-- Association-list lookup keyed by strings (models Python dict lookup:
first matching key wins; dicts have unique keys). -/
def alookup (k : String) : List (String × α) → Option α
  | [] => none
  | (k', v) :: rest => if k' = k then some v else alookup k rest

/-- Python dict insertion: overwriting an existing key keeps its position
and updates the value; a new key is appended at the end. -/
def dictInsert (d : List (String × α)) (k : String) (v : α) : List (String × α) :=
  if (alookup k d).isSome then
    d.map (fun p => if p.1 = k then (k, v) else p)
  else d ++ [(k, v)]

/-- Uppercase a string character-wise (models Python `str.upper` on the
ASCII identifiers used for sections/options). -/
def strUpper (s : String) : String := String.mk (s.data.map Char.toUpper)

/-- Lowercase a string character-wise (models Python `str.lower`). -/
def strLower (s : String) : String := String.mk (s.data.map Char.toLower)

/-- Boolean string-prefix test over character lists. -/
def listPfx : List Char → List Char → Bool
  | [], _ => true
  | _ :: _, [] => false
  | a :: as, b :: bs => a = b && listPfx as bs

/-- Split a character list on a separator character, keeping empty pieces
(models Python `str.split(sep)` with a one-character separator). -/
def splitOnChar (c : Char) : List Char → List (List Char)
  | [] => [[]]
  | a :: rest =>
    let r := splitOnChar c rest
    if a = c then [] :: r
    else match r with
      | [] => [[a]]
      | h :: t => (a :: h) :: t

/-- Trailing piece of `k.split('_')` (Python `k.split('_')[-1]`). -/
def lastSegment (k : String) : String :=
  String.mk ((splitOnChar '_' k.data).getLastD [])

/-- Leading piece of `s.split('_')` (Python `s.split('_')[0]`). -/
def headSegment (s : String) : String :=
  String.mk ((splitOnChar '_' s.data).headD [])

/-- Models `posixpath.basename`: everything after the last slash. -/
def basename (p : String) : String :=
  String.mk ((p.data.reverse.takeWhile (fun c => c ≠ '/')).reverse)

/-- Everything up to and including the last slash of `l` (the `head`
variable of `posixpath.dirname`). -/
def dirnameHead (l : List Char) : List Char :=
  (l.reverse.dropWhile (fun c => c ≠ '/')).reverse

/-- Models `posixpath.dirname` on character lists: keep everything up to and
including the last slash, then strip trailing slashes unless the result is
empty or consists only of slashes. -/
def dirnameData (l : List Char) : List Char :=
  if dirnameHead l = [] ∨ (dirnameHead l).all (fun c => c = '/') then dirnameHead l
  else ((dirnameHead l).reverse.dropWhile (fun c => c = '/')).reverse

/-- Models `posixpath.dirname`. -/
def dirname (p : String) : String := String.mk (dirnameData p.data)

/-- Models `posixpath.join(a, b)` for the two-argument uses in the code. -/
def pathJoin (a b : String) : String :=
  if listPfx ['/'] b.data then b
  else if a = "" ∨ a.data.getLast? = some '/' then a ++ b
  else a ++ "/" ++ b

/-- Models `os.path.expanduser` for the bare `~` user: a leading `~` path
component is replaced by the home directory; named-user forms and paths not
starting with `~` are returned unchanged. -/
def expanduser (home p : String) : String :=
  if p = "~" then home
  else if listPfx ['~', '/'] p.data then home ++ String.mk (p.data.drop 1)
  else p

/-- Errors raised by the backing store, mirroring
`configparser.NoSectionError(section)` and
`configparser.NoOptionError(option, section)`. -/
inductive ConfigError where
  | noSection (sec : String)
  | noOption (opt : String) (sec : String)
deriving DecidableEq, Repr

/-- An in-memory parsed INI store (models a `configparser` instance, spec
section 1's pluggable key/value store): sections in insertion order, each
holding `(option, value)` pairs in insertion order. -/
abbrev Store := List (String × List (String × String))

/-- Models `parser.get(section, option)`: no-section error if the section is
absent, no-option error if the option is absent from the section. -/
def Store.get (st : Store) (sec opt : String) : Except ConfigError String :=
  match alookup sec st with
  | none => .error (.noSection sec)
  | some opts =>
    match alookup opt opts with
    | none => .error (.noOption opt sec)
    | some v => .ok v

/-- Models `parser.has_option(section, option)`: false when the section is
missing. -/
def Store.hasOpt (st : Store) (sec opt : String) : Bool :=
  match alookup sec st with
  | none => false
  | some opts => (alookup opt opts).isSome

/-- Models `parser.items(section)`: the section's pairs, or a no-section
error. -/
def Store.items (st : Store) (sec : String) : Except ConfigError (List (String × String)) :=
  match alookup sec st with
  | none => .error (.noSection sec)
  | some opts => .ok opts

/-- Models `parser.add_section` wrapped in `try ... except
DuplicateSectionError: pass` (config.py lines 164-167): adding an existing
section is a no-op, a new section is appended empty. -/
def Store.addSectionIdem (st : Store) (sec : String) : Store :=
  if (alookup sec st).isSome then st else st ++ [(sec, [])]

/-- Models `parser.set(section, option, value)` on a store whose section
exists: the option is updated in place, or appended to the section. -/
def Store.setOpt (st : Store) (sec opt v : String) : Store :=
  st.map (fun p =>
    if p.1 = sec then
      (p.1,
        if (alookup opt p.2).isSome then
          p.2.map (fun q => if q.1 = opt then (opt, v) else q)
        else p.2 ++ [(opt, v)])
    else p)

/-- Merge a parsed file into a parser (models `parser.read(path)` on a file
that exists: each section of the file is added, then each of its options
set). -/
def Store.mergeRead (p : Store) (file : Store) : Store :=
  file.foldl (fun acc sec =>
    sec.2.foldl (fun a ov => Store.setOpt a sec.1 ov.1 ov.2) (acc.addSectionIdem sec.1)) p

/-- Models `parser.read(path)` including the missing-file case, which Python
silently skips. -/
def Store.readInto (p : Store) (file : Option Store) : Store :=
  match file with
  | none => p
  | some st => p.mergeRead st

/-- Explicit filesystem state: parsed content of each existing file, and the
set of existing directories. -/
structure World where
  fs : List (String × Store)
  dirs : List String
deriving DecidableEq, Repr

/-- Models `os.path.exists(path)` for the config-file paths. -/
def World.pathExists (w : World) (p : String) : Bool := (alookup p w.fs).isSome

/-- Content of the file at `p`, if it exists. -/
def World.readFile (w : World) (p : String) : Option Store := alookup p w.fs

/-- Models serializing a parser to `path` (the `config.write(configfile)`
call after `open(path, 'w')`): the path now holds exactly the parser's
contents. -/
def World.writeFile (w : World) (p : String) (st : Store) : World :=
  { w with fs := dictInsert w.fs p st }

/-- Models `ensure_dir(d)` from `knack.util`: create the directory if it does
not already exist. -/
def World.ensureDir (w : World) (d : String) : World :=
  { w with dirs := if d ∈ w.dirs then w.dirs else w.dirs ++ [d] }

/-- The dirname of a path is never longer than the path, and is strictly
shorter whenever it differs from it; this drives the termination of the
ancestor-directory walk, mirroring Python's `while` loop that stops once
`os.path.dirname` reaches a fixed point. -/
def dirname_shrink : ∀ p : String, dirname p ≠ p → (dirname p).length < p.length := by
  have hle : ∀ (q : Char → Bool) (l : List Char), (l.dropWhile q).length ≤ l.length :=
    fun q l => (List.dropWhile_suffix q).length_le
  have keyEq : ∀ (q : Char → Bool) (l : List Char),
      (l.dropWhile q).length = l.length → l.dropWhile q = l :=
    fun q l h => (List.dropWhile_suffix q).sublist.eq_of_length h
  have hheadle : ∀ l : List Char, (dirnameHead l).length ≤ l.length := by
    intro l
    unfold dirnameHead
    rw [List.length_reverse]
    exact le_trans (hle _ l.reverse) (le_of_eq (List.length_reverse l))
  have hheadeq : ∀ l : List Char, (dirnameHead l).length = l.length → dirnameHead l = l := by
    intro l h
    unfold dirnameHead at h ⊢
    rw [List.length_reverse] at h
    have h2 := keyEq (fun c => decide (c ≠ '/')) l.reverse
      (by rw [h, List.length_reverse])
    rw [h2, List.reverse_reverse]
  intro p hne
  by_contra hlt
  push_neg at hlt
  have hplen : p.length = p.data.length := rfl
  have hlen : ∀ l : List Char, (String.mk l).length = l.length := fun _ => rfl
  by_cases hc : dirnameHead p.data = [] ∨ (dirnameHead p.data).all (fun c => c = '/')
  · have hres : dirname p = String.mk (dirnameHead p.data) := by
      unfold dirname dirnameData
      rw [if_pos hc]
    rw [hres] at hlt
    simp only [hlen] at hlt
    have h1 : (dirnameHead p.data).length = p.data.length :=
      le_antisymm (hheadle _) hlt
    have h2 : dirnameHead p.data = p.data := hheadeq _ h1
    exact hne (by rw [hres, h2])
  · have hres : dirname p = String.mk (((dirnameHead p.data).reverse.dropWhile
        (fun c => c = '/')).reverse) := by
      unfold dirname dirnameData
      rw [if_neg hc]
    rw [hres] at hlt
    simp only [hlen] at hlt
    have hr1 : (((dirnameHead p.data).reverse.dropWhile (fun c => c = '/')).reverse).length
        ≤ (dirnameHead p.data).length := by
      rw [List.length_reverse]
      exact le_trans (hle _ (dirnameHead p.data).reverse)
        (le_of_eq (List.length_reverse (dirnameHead p.data)))
    have hall : (((dirnameHead p.data).reverse.dropWhile (fun c => c = '/')).reverse).length
        = p.data.length :=
      le_antisymm (le_trans hr1 (hheadle _)) hlt
    have hh : (dirnameHead p.data).length = p.data.length :=
      le_antisymm (hheadle _) (by rw [← hall]; exact hr1)
    have h2 : dirnameHead p.data = p.data := hheadeq _ hh
    have h3 : ((dirnameHead p.data).reverse.dropWhile (fun c => c = '/')) =
        (dirnameHead p.data).reverse := by
      apply keyEq
      rw [List.length_reverse, hh, ← hall, List.length_reverse]
    exact hne (by rw [hres, h3, List.reverse_reverse, h2])

/-- One on-disk config source (models `_ConfigFile`): its directory, its
file path, and the snapshot parsed at construction time, when the file
existed then. The field `config_store` models `self.config_parser`
(`None` when the file did not exist at construction). -/
structure ConfigFile where
  config_dir : String
  config_path : String
  config_store : Option Store
deriving DecidableEq, Repr

/-- Models `_ConfigFile.__init__(config_dir, config_path)` (config.py lines
122-128): if the path exists, eagerly parse it into a fresh parser;
otherwise leave the parser absent. Purely reads the world. -/
def ConfigFile.construct (w : World) (dir path : String) : ConfigFile × World :=
  if w.pathExists path then
    (⟨dir, path, some (Store.readInto [] (w.readFile path))⟩, w)
  else
    (⟨dir, path, none⟩, w)

/-- Models `_ConfigFile.items(section)` (line 130-131): empty when the file
never loaded, otherwise the parser's items (which may raise no-section). -/
def ConfigFile.items (cf : ConfigFile) (sec : String) : Except ConfigError (List (String × String)) :=
  match cf.config_store with
  | some p => p.items sec
  | none => .ok []

/-- Models `_ConfigFile.has_option` (lines 133-134). -/
def ConfigFile.has_option (cf : ConfigFile) (sec opt : String) : Bool :=
  match cf.config_store with
  | some p => p.hasOpt sec opt
  | none => false

/-- Models `_ConfigFile.get` (lines 136-140). When the file never loaded,
the code raises `configparser.NoOptionError(section, option)` — note it
passes the section in the option position; this is modelled verbatim. -/
def ConfigFile.get (cf : ConfigFile) (sec opt : String) : Except ConfigError String :=
  match cf.config_store with
  | some p => p.get sec opt
  | none => .error (.noOption sec opt)

/-- Models `_ConfigFile.set(config)` (lines 154-159): ensure the directory,
serialize the given transient parser to the path, then `config.read(path)`
— which re-reads into the TRANSIENT parser `config`, not into
`self.config_parser`; the cached snapshot is left untouched, exactly as in
the source. `os.chmod` to owner-only is not represented in `World`.
Returns (the unchanged source, the re-read transient parser, the new
world). -/
def ConfigFile.setStore (cf : ConfigFile) (config : Store) (w : World) : ConfigFile × Store × World :=
  let w1 := w.ensureDir cf.config_dir
  let w2 := w1.writeFile cf.config_path config
  let config1 := Store.readInto config (w2.readFile cf.config_path)
  (cf, config1, w2)

/-- Models `_ConfigFile.set_value` (lines 161-169): read the on-disk file
fresh into a transient parser, add the section idempotently, set the
option, and write the transient parser back via `set`. -/
def ConfigFile.set_value (cf : ConfigFile) (sec opt v : String) (w : World) : ConfigFile × World :=
  let config0 := Store.readInto [] (w.readFile cf.config_path)
  let config1 := config0.addSectionIdem sec
  let config2 := config1.setOpt sec opt v
  let r := cf.setStore config2 w
  (r.1, r.2.2)

/-- The process environment: an association list from variable names to
values (unique keys; first match wins on lookup). -/
abbrev Env := List (String × String)

/-- One ancestor-directory step of `CLIConfig.__init__`'s local-chain walk
(config.py lines 48-57): while the current directory is non-empty, build a
`_ConfigFile` for `<current>/<configDirName>/<fileName>`, stop after the
step where the parent equals the current directory, else ascend. -/
def walkLocal (cdName fname : String) (cur : String) (w : World) : List ConfigFile × World :=
  if _h1 : cur = "" then ([], w)
  else
    let ccd := pathJoin cur cdName
    let r := ConfigFile.construct w ccd (pathJoin ccd fname)
    if h2 : cur = dirname cur then ([r.1], r.2)
    else
      let rest := walkLocal cdName fname (dirname cur) r.2
      (r.1 :: rest.1, rest.2)
termination_by cur.length
decreasing_by exact dirname_shrink cur (fun h => h2 h.symm)

/-- Default config directory: `os.path.join('~', '.cli')`. -/
def DEFAULT_CONFIG_DIR : String := pathJoin "~" ".cli"

/-- The layered resolver (models `CLIConfig`). `env_var_pfx` holds the
`env_var_prefix` string (`prefix.upper() + '_'`); the stored
`_env_var_format` string is `env_var_pfx ++ "{section}_{option}"`
(see `CLIConfig.envVarFmt`). `config_store` models the unused empty
`self.config_parser` created in `__init__`. -/
structure CLIConfig where
  env_var_pfx : String
  config_dir : String
  config_store : Store
  config_file_chain : List ConfigFile
deriving DecidableEq, Repr

/-- The `_env_var_format` string stored by `__init__` (line 43). -/
def CLIConfig.envVarFmt (c : CLIConfig) : String :=
  c.env_var_pfx ++ "{section}_{option}"

/-- Models `CLIConfig.__init__(config_dir, config_env_var_prefix,
config_file_name, use_local_config)` (lines 27-58). Python's falsy-default
idiom (`x or DEFAULT`) is modelled by treating the empty string as the
absent argument. `cwd` models `os.getcwd()`, `home` the home directory
consulted by `os.path.expanduser`. -/
def CLIConfig.construct (config_dir0 config_env_var_pfx0 config_file_name0 : String)
    (use_local_config : Bool) (cwd home : String) (w : World) : CLIConfig × World :=
  let config_dir1 := if config_dir0 = "" then DEFAULT_CONFIG_DIR else config_dir0
  let pfx := if config_env_var_pfx0 = "" then "CLI" else config_env_var_pfx0
  let fname := if config_file_name0 = "" then "config" else config_file_name0
  let config_dir := expanduser home config_dir1
  let lr := if use_local_config then walkLocal (basename config_dir) fname cwd w else ([], w)
  let gr := ConfigFile.construct lr.2 config_dir (pathJoin config_dir fname)
  ({ env_var_pfx := strUpper pfx ++ "_",
     config_dir := config_dir,
     config_store := [],
     config_file_chain := lr.1 ++ [gr.1] }, gr.2)

/-- Models `CLIConfig.env_var_name(section, option)` (lines 60-62):
`_env_var_format.format(section=section.upper(), option=option.upper())`,
with the format substitution carried out on the stored format string. -/
def CLIConfig.env_var_name (c : CLIConfig) (sec opt : String) : String :=
  c.env_var_pfx ++ strUpper sec ++ "_" ++ strUpper opt

/-- Models `CLIConfig.has_option` (lines 64-67): the derived environment
variable is set, or some chain entry (the generator's first hit, an object
that is always truthy) has the option. -/
def CLIConfig.has_option (c : CLIConfig) (env : Env) (sec opt : String) : Bool :=
  if (alookup (c.env_var_name sec opt) env).isSome then true
  else c.config_file_chain.any (fun f => f.has_option sec opt)

/-- The `for config in self.config_file_chain` loop of `CLIConfig.get`
(lines 73-78), threading `last_ex` (initially `None`): return the first
successful per-file `get`, remembering the error of every miss. -/
def getFromChain : List ConfigFile → String → String → Option ConfigError →
    Except (Option ConfigError) String
  | [], _, _, lastEx => .error lastEx
  | cf :: rest, sec, opt, _lastEx =>
    match cf.get sec opt with
    | .ok v => .ok v
    | .error e => getFromChain rest sec opt (some e)

/-- Models `CLIConfig.get(section, option, fallback=_UNSET)` (lines 69-83).
The `_UNSET` sentinel is modelled by `fallback = none`; `.error lastEx`
with `lastEx = none` models `raise last_ex` when no exception was recorded
(only reachable on an empty chain, where Python would raise a TypeError). -/
def CLIConfig.get (c : CLIConfig) (env : Env) (sec opt : String) (fallback : Option String) :
    Except (Option ConfigError) String :=
  match alookup (c.env_var_name sec opt) env with
  | some v => .ok v
  | none =>
    match getFromChain c.config_file_chain sec opt none with
    | .ok v => .ok v
    | .error lastEx =>
      match fallback with
      | none => .error lastEx
      | some fb => .ok fb

/-- Models `CLIConfig._BOOLEAN_STATES` (lines 20-21). -/
def BOOLEAN_STATES : List (String × Bool) :=
  [("1", true), ("yes", true), ("true", true), ("on", true),
   ("0", false), ("no", false), ("false", false), ("off", false)]

/-- Errors of the coercing accessors: a propagated not-found from `get`, or
the `ValueError('Not a boolean: ...')` of a failed boolean coercion. -/
inductive CoerceError where
  | notFound (e : Option ConfigError)
  | valueError (msg : String)
deriving DecidableEq, Repr

/-- Models `CLIConfig.getboolean` (lines 107-111): `get`, then the
case-insensitive lookup in `_BOOLEAN_STATES`, raising the boolean-literal
`ValueError` (whose message carries the offending text) on any other
token. `str(...)` is the identity here since all modelled values are
strings. -/
def CLIConfig.getboolean (c : CLIConfig) (env : Env) (sec opt : String)
    (fallback : Option String) : Except CoerceError Bool :=
  match c.get env sec opt fallback with
  | .error e => .error (.notFound e)
  | .ok val =>
    match alookup (strLower val) BOOLEAN_STATES with
    | none => .error (.valueError ("Not a boolean: " ++ val))
    | some b => .ok b

/-- Models `CLIConfig.set(config)` (lines 113-114): delegate the whole-store
write to `self.config_file_chain[0]`. On an empty chain Python would raise
an IndexError; that unreachable case is modelled as a no-op. Returns the
(mutated) caller parser and the new world. -/
def CLIConfig.set (c : CLIConfig) (config : Store) (w : World) : Store × World :=
  match c.config_file_chain with
  | cf :: _ =>
    let r := cf.setStore config w
    (r.2.1, r.2.2)
  | [] => (config, w)

/-- Models `CLIConfig.set_value(section, option, value)` (lines 116-117):
delegate to `self.config_file_chain[0].set_value`. The chain-head object
(mutated in place in Python — in fact left unchanged by the source) is
threaded back into the chain. -/
def CLIConfig.set_value (c : CLIConfig) (sec opt v : String) (w : World) : CLIConfig × World :=
  match c.config_file_chain with
  | cf :: rest =>
    let r := cf.set_value sec opt v w
    ({ c with config_file_chain := r.1 :: rest }, r.2)
  | [] => (c, w)

/-- One emitted entry of `CLIConfig.items` (line 99). -/
structure ItemEntry where
  name : String
  value : String
  source : String
deriving DecidableEq, Repr

/-- The pattern string of `CLIConfig.items` (line 87):
`self._env_var_format.split('_')[0] + '_' + section + '_'`; the regex tail
`.+` of the source is modelled separately (`patMatches`). -/
def CLIConfig.itemsPat (c : CLIConfig) (sec : String) : String :=
  headSegment c.envVarFmt ++ "_" ++ sec ++ "_"

/-- Models `re.match(pattern + '.+', k)`: the pattern is a literal prefix of
`k` and at least one character follows. Regex metacharacters inside the
section name, and the newline exclusion of `.`, are not represented. -/
def patMatches (pat k : String) : Bool :=
  listPfx pat.data k.data && decide (pat.data.length < k.data.length)

/-- The environment keys scanned by `CLIConfig.items` (line 88): every
environment variable name matching the derived section pattern, in
environment order. -/
def CLIConfig.matchingEnvKeys (c : CLIConfig) (env : Env) (sec : String) : List String :=
  (env.map (fun kv => kv.1)).filter (fun k => patMatches (c.itemsPat sec) k)

/-- The `candidates` list of `CLIConfig.items` (line 88): for each matching
key, `(trailing '_'-segment, os.environ[k], k)`. -/
def CLIConfig.envCandidates (c : CLIConfig) (env : Env) (sec : String) :
    List (String × String × String) :=
  (c.matchingEnvKeys env sec).map (fun k => (lastSegment k, (alookup k env).getD "", k))

/-- The dict comprehension `{c[0]: c for c in candidates}` of line 89, with
Python dict semantics (`dictInsert`). -/
def CLIConfig.envDict (c : CLIConfig) (env : Env) (sec : String) :
    List (String × (String × String × String)) :=
  (c.envCandidates env sec).foldl (fun d cnd => dictInsert d cnd.1 cnd) []

/-- One chain entry's contribution to `CLIConfig.items` (lines 90-97): its
section items, skipped entirely on a no-section/no-option error, each
recorded only when the name is not already a key. -/
def itemsAddFile (sec : String) (d : List (String × (String × String × String)))
    (cf : ConfigFile) : List (String × (String × String × String)) :=
  match cf.items sec with
  | .error _ => d
  | .ok entries =>
    entries.foldl (fun d2 nv =>
      if (alookup nv.1 d2).isSome then d2
      else d2 ++ [(nv.1, (nv.1, nv.2, cf.config_path))]) d

/-- The final comprehension of line 99: one dict value rendered as a
`{name, value, source}` record. -/
def entryOf (kv : String × (String × String × String)) : ItemEntry :=
  { name := kv.2.1, value := kv.2.2.1, source := kv.2.2.2 }

/-- Models `CLIConfig.items(section)` (lines 85-99): environment candidates
first (dict-keyed by option name), then each chain entry in order, then the
dict's values as `{name, value, source}` records. -/
def CLIConfig.items (c : CLIConfig) (env : Env) (sec : String) : List ItemEntry :=
  (c.config_file_chain.foldl (itemsAddFile sec) (c.envDict env sec)).map entryOf

/-- The environment-sourced slice of `items`: the dict state after line 89,
rendered as records. -/
def CLIConfig.envItems (c : CLIConfig) (env : Env) (sec : String) : List ItemEntry :=
  (c.envDict env sec).map entryOf

theorem getFromChain_first_hit (sec opt v : String) (cf : ConfigFile) :
    ∀ (pre post : List ConfigFile) (le : Option ConfigError),
      (∀ f ∈ pre, ∃ e, f.get sec opt = .error e) → cf.get sec opt = .ok v →
      getFromChain (pre ++ cf :: post) sec opt le = .ok v := by
  intro pre
  induction pre with
  | nil =>
    intro post le _ hcf
    simp [getFromChain, hcf]
  | cons a as ih =>
    intro post le hpre hcf
    obtain ⟨e, he⟩ := hpre a (List.mem_cons_self a as)
    rw [List.cons_append]
    unfold getFromChain
    rw [he]
    exact ih post (some e) (fun f hf => hpre f (List.mem_cons_of_mem a hf)) hcf

/-- C2: if the process environment contains the derived variable name for
`(section, option)`, then `get` returns that environment value verbatim,
with no type coercion, whatever fallback was passed and whatever the chain
files contain (the chain inside `c` is arbitrary). -/
theorem C2_env_dominates (c : CLIConfig) (env : Env) (sec opt : String)
    (fallback : Option String) (v : String)
    (h : alookup (c.env_var_name sec opt) env = some v) :
    c.get env sec opt fallback = .ok v := by
  unfold CLIConfig.get
  rw [h]

theorem C2_env_dominates_witness :
    alookup ((CLIConfig.construct "" "" "" false "/" "/home/u"
        ⟨[("/home/u/.cli/config", [("core", [("output", "table")])])], []⟩).1.env_var_name
        "core" "output") [("CLI_CORE_OUTPUT", "json")] = some "json"
    ∧ (CLIConfig.construct "" "" "" false "/" "/home/u"
        ⟨[("/home/u/.cli/config", [("core", [("output", "table")])])], []⟩).1.get
        [("CLI_CORE_OUTPUT", "json")] "core" "output" none = .ok "json" :=
  ⟨by decide,
   C2_env_dominates _ _ "core" "output" none "json" (by decide)⟩

/-- C3: with the environment variable unset, when the chain splits as
`pre ++ cf :: post` where every source in `pre` fails on the pair and `cf`
answers `v`, `get` returns `v`; the sources after `cf` (`post`) are
universally quantified, so the result is independent of their contents. -/
theorem C3_first_hit_chain (c : CLIConfig) (env : Env) (sec opt : String)
    (fallback : Option String) (pre post : List ConfigFile) (cf : ConfigFile) (v : String)
    (hchain : c.config_file_chain = pre ++ cf :: post)
    (henv : alookup (c.env_var_name sec opt) env = none)
    (hpre : ∀ f ∈ pre, ∃ e, f.get sec opt = .error e)
    (hcf : cf.get sec opt = .ok v) :
    c.get env sec opt fallback = .ok v := by
  unfold CLIConfig.get
  rw [henv, hchain, getFromChain_first_hit sec opt v cf pre post none hpre hcf]

theorem C3_first_hit_chain_witness :
    CLIConfig.get ⟨"CLI_", "/c/.cli", [],
      [⟨"/a/.cli", "/a/.cli/config", some [("s", [("x", "1")])]⟩,
       ⟨"/b/.cli", "/b/.cli/config", some [("s", [("o", "B")])]⟩,
       ⟨"/c/.cli", "/c/.cli/config", some [("s", [("o", "C")])]⟩]⟩ [] "s" "o" none = .ok "B" :=
  C3_first_hit_chain _ [] "s" "o" none
    [⟨"/a/.cli", "/a/.cli/config", some [("s", [("x", "1")])]⟩]
    [⟨"/c/.cli", "/c/.cli/config", some [("s", [("o", "C")])]⟩]
    ⟨"/b/.cli", "/b/.cli/config", some [("s", [("o", "B")])]⟩ "B" rfl rfl
    (by
      intro f hf
      simp only [List.mem_singleton] at hf
      subst hf
      exact ⟨ConfigError.noOption "o" "s", rfl⟩)
    rfl

theorem ConfigFile.has_get_iff (cf : ConfigFile) (sec opt : String) :
    cf.has_option sec opt = true ↔ ∃ v, cf.get sec opt = .ok v := by
  unfold ConfigFile.has_option ConfigFile.get
  cases cf.config_store with
  | none => simp
  | some p =>
    unfold Store.hasOpt Store.get
    cases h1 : alookup sec p with
    | none => simp [h1]
    | some opts =>
      cases h2 : alookup opt opts with
      | none => simp [h1, h2]
      | some v => simp [h1, h2]

theorem getFromChain_ok_iff (sec opt : String) :
    ∀ (chain : List ConfigFile) (le : Option ConfigError),
      (∃ v, getFromChain chain sec opt le = .ok v) ↔
        ∃ f ∈ chain, f.has_option sec opt = true := by
  intro chain
  induction chain with
  | nil => intro le; simp [getFromChain]
  | cons a rest ih =>
    intro le
    unfold getFromChain
    cases ha : a.get sec opt with
    | ok v =>
      simp only []
      constructor
      · intro _
        exact ⟨a, List.mem_cons_self a rest, (ConfigFile.has_get_iff a sec opt).2 ⟨v, ha⟩⟩
      · intro _
        exact ⟨v, rfl⟩
    | error e =>
      simp only []
      rw [ih (some e)]
      constructor
      · rintro ⟨f, hf, hfh⟩
        exact ⟨f, List.mem_cons_of_mem a hf, hfh⟩
      · rintro ⟨f, hf, hfh⟩
        rcases List.mem_cons.1 hf with rfl | hf2
        · exfalso
          obtain ⟨v, hv⟩ := (ConfigFile.has_get_iff f sec opt).1 hfh
          rw [ha] at hv
          exact Except.noConfusion hv
        · exact ⟨f, hf2, hfh⟩

/-- C4: `has_option` answers true exactly when `get` with no fallback
succeeds, for any fixed environment and any chain contents. -/
theorem C4_has_option_iff_get (c : CLIConfig) (env : Env) (sec opt : String) :
    c.has_option env sec opt = true ↔ ∃ v, c.get env sec opt none = .ok v := by
  unfold CLIConfig.has_option CLIConfig.get
  cases he : alookup (c.env_var_name sec opt) env with
  | some v => simp
  | none =>
    have h1 : (c.config_file_chain.any (fun f => f.has_option sec opt) = true) ↔
        ∃ f ∈ c.config_file_chain, f.has_option sec opt = true := List.any_eq_true
    rw [if_neg (by simp)]
    cases hg : getFromChain c.config_file_chain sec opt none with
    | ok w =>
      simp only []
      constructor
      · intro _
        exact ⟨w, rfl⟩
      · intro _
        exact h1.2 ((getFromChain_ok_iff sec opt c.config_file_chain none).1 ⟨w, hg⟩)
    | error le =>
      simp only []
      constructor
      · intro hany
        exfalso
        obtain ⟨v2, hv2⟩ := (getFromChain_ok_iff sec opt c.config_file_chain none).2 (h1.1 hany)
        rw [hg] at hv2
        exact Except.noConfusion hv2
      · rintro ⟨v2, hv2⟩
        exact absurd hv2 (by simp)

theorem getFromChain_error_iff (sec opt : String) :
    ∀ (chain : List ConfigFile) (le : Option ConfigError),
      (∃ err, getFromChain chain sec opt le = .error err) ↔
        ∀ f ∈ chain, ∃ e, f.get sec opt = .error e := by
  intro chain
  induction chain with
  | nil => intro le; simp [getFromChain]
  | cons a rest ih =>
    intro le
    unfold getFromChain
    cases ha : a.get sec opt with
    | ok v =>
      simp only []
      constructor
      · rintro ⟨err, herr⟩
        exact absurd herr (by simp)
      · intro hall
        obtain ⟨e, he⟩ := hall a (List.mem_cons_self a rest)
        rw [ha] at he
        exact absurd he (by simp)
    | error e =>
      simp only []
      rw [ih (some e)]
      constructor
      · intro hall f hf
        rcases List.mem_cons.1 hf with rfl | hf2
        · exact ⟨e, ha⟩
        · exact hall f hf2
      · intro hall f hf
        exact hall f (List.mem_cons_of_mem a hf)

theorem getFromChain_error_last (sec opt : String) :
    ∀ (chain : List ConfigFile) (le : Option ConfigError) (cf : ConfigFile) (e : ConfigError),
      chain.getLast? = some cf → cf.get sec opt = .error e →
      (∀ f ∈ chain, ∃ e2, f.get sec opt = .error e2) →
      getFromChain chain sec opt le = .error (some e) := by
  intro chain
  induction chain with
  | nil =>
    intro le cf e hlast
    exact absurd hlast (by simp)
  | cons a rest ih =>
    intro le cf e hlast hcf hall
    obtain ⟨e2, he2⟩ := hall a (List.mem_cons_self a rest)
    unfold getFromChain
    rw [he2]
    cases rest with
    | nil =>
      have ha : a = cf := by simpa using hlast
      subst ha
      rw [hcf] at he2
      cases he2
      simp [getFromChain]
    | cons b rest2 =>
      have hlast2 : (b :: rest2).getLast? = some cf := by
        rw [← hlast, List.getLast?_cons_cons]
      exact ih (some e2) cf e hlast2 hcf (fun f hf => hall f (List.mem_cons_of_mem a hf))

/-- C5: `get` with no fallback fails exactly when the environment variable
is unset and every chain source fails on the pair; when it would fail and a
fallback was supplied, the fallback is returned instead; and the error
raised is the one recorded from the last chain source. -/
theorem C5_get_raises_iff (c : CLIConfig) (env : Env) (sec opt : String) :
    ((∃ err, c.get env sec opt none = .error err) ↔
      (alookup (c.env_var_name sec opt) env = none ∧
        ∀ f ∈ c.config_file_chain, ∃ e, f.get sec opt = .error e))
    ∧ (∀ fb : String, (∃ err, c.get env sec opt none = .error err) →
        c.get env sec opt (some fb) = .ok fb)
    ∧ (∀ cf e, c.config_file_chain.getLast? = some cf → cf.get sec opt = .error e →
        (∃ err, c.get env sec opt none = .error err) →
        c.get env sec opt none = .error (some e)) := by
  unfold CLIConfig.get
  cases he : alookup (c.env_var_name sec opt) env with
  | some v =>
    refine ⟨?_, ?_, ?_⟩
    · constructor
      · rintro ⟨err, herr⟩
        exact absurd herr (by simp)
      · rintro ⟨hnone, -⟩
        exact Option.noConfusion hnone
    · rintro fb ⟨err, herr⟩
      exact absurd herr (by simp)
    · rintro cf e - - ⟨err, herr⟩
      exact absurd herr (by simp)
  | none =>
    cases hg : getFromChain c.config_file_chain sec opt none with
    | ok w =>
      refine ⟨?_, ?_, ?_⟩
      · constructor
        · rintro ⟨err, herr⟩
          exact absurd herr (by simp)
        · rintro ⟨-, hall⟩
          obtain ⟨err, herr⟩ := (getFromChain_error_iff sec opt c.config_file_chain none).2 hall
          rw [hg] at herr
          exact absurd herr (by simp)
      · rintro fb ⟨err, herr⟩
        exact absurd herr (by simp)
      · rintro cf e - - ⟨err, herr⟩
        exact absurd herr (by simp)
    | error le =>
      refine ⟨?_, ?_, ?_⟩
      · constructor
        · rintro ⟨err, -⟩
          exact ⟨rfl, (getFromChain_error_iff sec opt c.config_file_chain none).1 ⟨le, hg⟩⟩
        · rintro -
          exact ⟨le, rfl⟩
      · rintro fb -
        rfl
      · rintro cf e hlast hcf -
        have hres := getFromChain_error_last sec opt c.config_file_chain none cf e hlast hcf
          ((getFromChain_error_iff sec opt c.config_file_chain none).1 ⟨le, hg⟩)
        rw [hg] at hres
        exact hres

theorem C5_get_raises_iff_witness :
    CLIConfig.get ⟨"CLI_", "/d", [], [⟨"/d", "/d/config", none⟩]⟩ [] "a" "b" (some "z") = .ok "z"
    ∧ CLIConfig.get ⟨"CLI_", "/d", [], [⟨"/d", "/d/config", none⟩]⟩ [] "a" "b" none
        = .error (some (ConfigError.noOption "a" "b")) :=
  ⟨(C5_get_raises_iff ⟨"CLI_", "/d", [], [⟨"/d", "/d/config", none⟩]⟩ [] "a" "b").2.1 "z"
      ⟨some (ConfigError.noOption "a" "b"), rfl⟩,
   (C5_get_raises_iff ⟨"CLI_", "/d", [], [⟨"/d", "/d/config", none⟩]⟩ [] "a" "b").2.2
      ⟨"/d", "/d/config", none⟩ (ConfigError.noOption "a" "b") rfl rfl
      ⟨some (ConfigError.noOption "a" "b"), rfl⟩⟩

theorem alookup_eq_none (k : String) (l : List (String × α)) (h : ∀ p ∈ l, p.1 ≠ k) :
    alookup k l = none := by
  induction l with
  | nil => rfl
  | cons a rest ih =>
    obtain ⟨k', v⟩ := a
    unfold alookup
    rw [if_neg (h (k', v) (List.mem_cons_self _ rest))]
    exact ih (fun p hp => h p (List.mem_cons_of_mem _ hp))

/-- C6: whenever `get` produces a value `v`, `getboolean` maps it through
the fixed case-insensitive boolean literal set: the lowered form of
`1/yes/true/on` yields `true`, of `0/no/false/off` yields `false`, and any
other token raises the `ValueError` whose message carries the offending
text. -/
theorem C6_boolean_coercion (c : CLIConfig) (env : Env) (sec opt : String)
    (fallback : Option String) (v : String) (h : c.get env sec opt fallback = .ok v) :
    (strLower v ∈ (["1", "yes", "true", "on"] : List String) →
        c.getboolean env sec opt fallback = .ok true)
    ∧ (strLower v ∈ (["0", "no", "false", "off"] : List String) →
        c.getboolean env sec opt fallback = .ok false)
    ∧ (strLower v ∉ (["1", "yes", "true", "on", "0", "no", "false", "off"] : List String) →
        c.getboolean env sec opt fallback = .error (.valueError ("Not a boolean: " ++ v))) := by
  have hgb : c.getboolean env sec opt fallback =
      (match alookup (strLower v) BOOLEAN_STATES with
        | none => .error (.valueError ("Not a boolean: " ++ v))
        | some b => .ok b) := by
    unfold CLIConfig.getboolean
    rw [h]
  refine ⟨?_, ?_, ?_⟩
  · intro hm
    simp only [List.mem_cons, List.not_mem_nil, or_false] at hm
    rcases hm with h1 | h1 | h1 | h1 <;> rw [hgb, h1] <;> rfl
  · intro hm
    simp only [List.mem_cons, List.not_mem_nil, or_false] at hm
    rcases hm with h1 | h1 | h1 | h1 <;> rw [hgb, h1] <;> rfl
  · intro hm
    have hnone : alookup (strLower v) BOOLEAN_STATES = none := by
      apply alookup_eq_none
      intro p hp hpk
      apply hm
      rw [← hpk]
      simp only [BOOLEAN_STATES, List.mem_cons, List.not_mem_nil, or_false] at hp
      rcases hp with rfl | rfl | rfl | rfl | rfl | rfl | rfl | rfl <;> simp
    rw [hgb, hnone]
theorem C6_boolean_coercion_witness :
    CLIConfig.getboolean ⟨"CLI_", "/d", [],
        [⟨"/d", "/d/config", some [("s", [("b", "YES"), ("f", "off"), ("m", "maybe")])]⟩]⟩
      [] "s" "b" none = .ok true
    ∧ CLIConfig.getboolean ⟨"CLI_", "/d", [],
        [⟨"/d", "/d/config", some [("s", [("b", "YES"), ("f", "off"), ("m", "maybe")])]⟩]⟩
      [] "s" "f" none = .ok false
    ∧ CLIConfig.getboolean ⟨"CLI_", "/d", [],
        [⟨"/d", "/d/config", some [("s", [("b", "YES"), ("f", "off"), ("m", "maybe")])]⟩]⟩
      [] "s" "m" none = .error (.valueError "Not a boolean: maybe") :=
  ⟨(C6_boolean_coercion ⟨"CLI_", "/d", [],
        [⟨"/d", "/d/config", some [("s", [("b", "YES"), ("f", "off"), ("m", "maybe")])]⟩]⟩
      [] "s" "b" none "YES" rfl).1 (by decide),
   (C6_boolean_coercion ⟨"CLI_", "/d", [],
        [⟨"/d", "/d/config", some [("s", [("b", "YES"), ("f", "off"), ("m", "maybe")])]⟩]⟩
      [] "s" "f" none "off" rfl).2.1 (by decide),
   (C6_boolean_coercion ⟨"CLI_", "/d", [],
        [⟨"/d", "/d/config", some [("s", [("b", "YES"), ("f", "off"), ("m", "maybe")])]⟩]⟩
      [] "s" "m" none "maybe" rfl).2.2 (by decide)⟩

/-- C1: the round-trip claim fails on the code, evaluated at the failing
input. On a freshly constructed default `CLIConfig` over an empty world and
empty environment, `set_value("core", "output", "json")` writes the file on
disk (second conjunct), yet the subsequent `get("core", "output")` on the
same instance raises the not-found error instead of returning `"json"`
(first conjunct): `_ConfigFile.set` re-reads the transient parser `config`,
never `self.config_parser`, so the chain head's in-memory cache stays
`None`. -/
theorem C1_round_trip_fails_eval :
    (((CLIConfig.construct "" "" "" false "/" "/home/u" ⟨[], []⟩).1.set_value "core" "output"
        "json" (CLIConfig.construct "" "" "" false "/" "/home/u" ⟨[], []⟩).2).1.get []
        "core" "output" none = .error (some (ConfigError.noOption "core" "output")))
    ∧ (((CLIConfig.construct "" "" "" false "/" "/home/u" ⟨[], []⟩).1.set_value "core" "output"
        "json" (CLIConfig.construct "" "" "" false "/" "/home/u" ⟨[], []⟩).2).2.readFile
        "/home/u/.cli/config" = some [("core", [("output", "json")])]) :=
  ⟨rfl, rfl⟩

/-- C8 counterexample: the derivation is NOT a 1:1 mapping. The two distinct
pairs `("a", "b")` and `("A", "B")` map to the same environment variable
name on a default-constructed resolver, because both components are
upper-cased. -/
theorem C8_env_var_name_collision :
    (CLIConfig.construct "" "" "" false "/" "/home/u" ⟨[], []⟩).1.env_var_name "a" "b"
      = (CLIConfig.construct "" "" "" false "/" "/home/u" ⟨[], []⟩).1.env_var_name "A" "B"
    ∧ ("a", "b") ≠ (("A", "B") : String × String) :=
  ⟨rfl, by decide⟩

/-- C8 (amended): `env_var_name` is a deterministic derivation from only the
constructor-fixed prefix and its two arguments — in this embedding it takes
neither a `World` nor an `Env`, so it can touch neither the filesystem nor
the process environment — and it returns `PREFIX_SECTION_OPTION` with every
component upper-cased. The 1:1 part of the original claim is refuted by
`C8_env_var_name_collision`: distinct pairs can collide. -/
theorem C8_env_var_name_format (cd px fn : String) (ul : Bool) (cwd home : String) (w : World)
    (sec opt : String) :
    (CLIConfig.construct cd px fn ul cwd home w).1.env_var_name sec opt
      = strUpper (if px = "" then "CLI" else px) ++ "_" ++ strUpper sec ++ "_" ++ strUpper opt := by
  unfold CLIConfig.env_var_name CLIConfig.construct
  rfl

theorem ConfigFile.construct_world (w : World) (d p : String) :
    (ConfigFile.construct w d p).2 = w := by
  unfold ConfigFile.construct
  split <;> rfl

theorem walkLocal_world_aux : ∀ (n : Nat) (a b cur : String) (w : World),
    cur.length ≤ n → (walkLocal a b cur w).2 = w := by
  intro n
  induction n with
  | zero =>
    intro a b cur w hl
    have hdata : cur.data = [] := List.length_eq_zero.1 (Nat.le_zero.1 hl)
    obtain ⟨cd2⟩ := cur
    simp only at hdata
    subst hdata
    rw [walkLocal]
    rfl
  | succ n ih =>
    intro a b cur w hl
    rw [walkLocal]
    by_cases h1 : cur = ""
    · rw [dif_pos h1]
    · rw [dif_neg h1]
      by_cases h2 : cur = dirname cur
      · rw [dif_pos h2]
        exact ConfigFile.construct_world w _ _
      · rw [dif_neg h2]
        have hlt := dirname_shrink cur (fun hh => h2 hh.symm)
        have hd : (dirname cur).length ≤ n := by omega
        rw [ih a b (dirname cur) _ hd]
        exact ConfigFile.construct_world w _ _

theorem CLIConfig.construct_preserves_world (cd px fn : String) (ul : Bool) (cwd home : String)
    (w : World) : (CLIConfig.construct cd px fn ul cwd home w).2 = w := by
  unfold CLIConfig.construct
  rw [ConfigFile.construct_world]
  cases ul
  · rfl
  · exact walkLocal_world_aux cwd.length _ _ cwd w le_rfl

theorem CLIConfig.construct_chain (cd px fn : String) (ul : Bool) (cwd home : String)
    (w : World) :
    (CLIConfig.construct cd px fn ul cwd home w).1.config_file_chain =
      (if ul then walkLocal (basename (expanduser home
            (if cd = "" then DEFAULT_CONFIG_DIR else cd)))
          (if fn = "" then "config" else fn) cwd w else ([], w)).1
        ++ [(ConfigFile.construct w
            (expanduser home (if cd = "" then DEFAULT_CONFIG_DIR else cd))
            (pathJoin (expanduser home (if cd = "" then DEFAULT_CONFIG_DIR else cd))
              (if fn = "" then "config" else fn))).1] := by
  have hw : (if ul then walkLocal (basename (expanduser home
        (if cd = "" then DEFAULT_CONFIG_DIR else cd)))
      (if fn = "" then "config" else fn) cwd w else ([], w)).2 = w := by
    cases ul
    · rfl
    · exact walkLocal_world_aux cwd.length _ _ cwd w le_rfl
  have key : ∀ lr : List ConfigFile × World, lr.2 = w →
      lr.1 ++ [(ConfigFile.construct lr.2
          (expanduser home (if cd = "" then DEFAULT_CONFIG_DIR else cd))
          (pathJoin (expanduser home (if cd = "" then DEFAULT_CONFIG_DIR else cd))
            (if fn = "" then "config" else fn))).1]
        = lr.1 ++ [(ConfigFile.construct w
          (expanduser home (if cd = "" then DEFAULT_CONFIG_DIR else cd))
          (pathJoin (expanduser home (if cd = "" then DEFAULT_CONFIG_DIR else cd))
            (if fn = "" then "config" else fn))).1] := by
    intro lr h
    rw [h]
  exact key _ hw

theorem alookup_map_replace (q k : String) (v : α) (d : List (String × α)) (h : q ≠ k) :
    alookup q (d.map (fun p => if p.1 = k then (k, v) else p)) = alookup q d := by
  induction d with
  | nil => rfl
  | cons a rest ih =>
    obtain ⟨k', v'⟩ := a
    by_cases hk' : k' = k
    · subst hk'
      have hhead : (if ((k', v') : String × α).1 = k' then (k', v) else (k', v')) = (k', v) := by
        simp
      rw [List.map_cons, hhead]
      unfold alookup
      rw [if_neg (fun hh : k' = q => h (hh.symm)), if_neg (fun hh : k' = q => h (hh.symm))]
      exact ih
    · simp only [List.map_cons, if_neg hk']
      unfold alookup
      by_cases hq : k' = q
      · rw [if_pos hq, if_pos hq]
      · rw [if_neg hq, if_neg hq]
        exact ih

theorem alookup_append_single_ne (q k : String) (v : α) (d : List (String × α)) (h : q ≠ k) :
    alookup q (d ++ [(k, v)]) = alookup q d := by
  induction d with
  | nil =>
    show alookup q [(k, v)] = none
    unfold alookup
    rw [if_neg (fun hh : k = q => h (hh.symm))]
    rfl
  | cons a rest ih =>
    obtain ⟨k', v'⟩ := a
    show alookup q ((k', v') :: (rest ++ [(k, v)])) = alookup q ((k', v') :: rest)
    unfold alookup
    by_cases hq : k' = q
    · rw [if_pos hq, if_pos hq]
    · rw [if_neg hq, if_neg hq]
      exact ih

theorem alookup_dictInsert_ne (q k : String) (v : α) (d : List (String × α)) (h : q ≠ k) :
    alookup q (dictInsert d k v) = alookup q d := by
  unfold dictInsert
  by_cases hk : (alookup k d).isSome
  · rw [if_pos hk]
    exact alookup_map_replace q k v d h
  · rw [if_neg hk]
    exact alookup_append_single_ne q k v d h

theorem World.readFile_writeFile_ne (w : World) (p q : String) (st : Store) (h : q ≠ p) :
    (w.writeFile p st).readFile q = w.readFile q := by
  unfold World.writeFile World.readFile
  exact alookup_dictInsert_ne q p st w.fs h

theorem CLIConfig.set_value_frame (c : CLIConfig) (sec opt v : String) (w : World) (p : String)
    (h : p ≠ (c.config_file_chain.headD ⟨"", "", none⟩).config_path) :
    ((c.set_value sec opt v w).2).readFile p = w.readFile p := by
  cases hch : c.config_file_chain with
  | nil => simp only [CLIConfig.set_value, hch]
  | cons cf rest =>
    rw [hch] at h
    simp only [List.headD_cons] at h
    simp only [CLIConfig.set_value, hch]
    unfold ConfigFile.set_value ConfigFile.setStore
    exact World.readFile_writeFile_ne _ _ _ _ h

theorem CLIConfig.set_frame (c : CLIConfig) (config : Store) (w : World) (p : String)
    (h : p ≠ (c.config_file_chain.headD ⟨"", "", none⟩).config_path) :
    ((c.set config w).2).readFile p = w.readFile p := by
  cases hch : c.config_file_chain with
  | nil => simp only [CLIConfig.set, hch]
  | cons cf rest =>
    rw [hch] at h
    simp only [List.headD_cons] at h
    simp only [CLIConfig.set, hch]
    unfold ConfigFile.setStore
    exact World.readFile_writeFile_ne _ _ _ _ h

/-- C7: after any construction, the chain is non-empty; its last element is
the global fallback source built from the (expanded) config directory and
file name — also when local-chain walking is enabled; and both `set` and
`set_value` write only through the chain element at index 0: every path
other than the chain head's `config_path` is untouched on disk. -/
theorem C7_chain_invariant (cd px fn : String) (ul : Bool) (cwd home : String) (w : World)
    (c : CLIConfig) (hc : c = (CLIConfig.construct cd px fn ul cwd home w).1) :
    c.config_file_chain ≠ []
    ∧ c.config_file_chain.getLast? = some (ConfigFile.construct w
        (expanduser home (if cd = "" then DEFAULT_CONFIG_DIR else cd))
        (pathJoin (expanduser home (if cd = "" then DEFAULT_CONFIG_DIR else cd))
          (if fn = "" then "config" else fn))).1
    ∧ (∀ sec opt v w' p, p ≠ (c.config_file_chain.headD ⟨"", "", none⟩).config_path →
        ((c.set_value sec opt v w').2).readFile p = w'.readFile p)
    ∧ (∀ st w' p, p ≠ (c.config_file_chain.headD ⟨"", "", none⟩).config_path →
        ((c.set st w').2).readFile p = w'.readFile p) := by
  subst hc
  refine ⟨?_, ?_,
    fun sec opt v w' p hp => CLIConfig.set_value_frame _ sec opt v w' p hp,
    fun st w' p hp => CLIConfig.set_frame _ st w' p hp⟩
  · rw [CLIConfig.construct_chain]
    simp
  · rw [CLIConfig.construct_chain]
    exact List.getLast?_concat _

theorem C7_chain_invariant_witness :
    ((CLIConfig.construct "" "" "" true "/a" "/home/u" ⟨[], []⟩).1.config_file_chain ≠ [])
    ∧ (CLIConfig.construct "" "" "" true "/a" "/home/u" ⟨[], []⟩).1.config_file_chain.getLast?
        = some (ConfigFile.construct ⟨[], []⟩ "/home/u/.cli" "/home/u/.cli/config").1
    ∧ (((CLIConfig.construct "" "" "" false "/a" "/home/u" ⟨[], []⟩).1.set_value "a" "b" "c"
        ⟨[("/other", [])], []⟩).2).readFile "/other" = some [] := by
  refine ⟨(C7_chain_invariant "" "" "" true "/a" "/home/u" ⟨[], []⟩ _ rfl).1, ?_, ?_⟩
  · rw [(C7_chain_invariant "" "" "" true "/a" "/home/u" ⟨[], []⟩ _ rfl).2.1]
    rfl
  · rw [(C7_chain_invariant "" "" "" false "/a" "/home/u" ⟨[], []⟩ _ rfl).2.2.1 "a" "b" "c"
      ⟨[("/other", [])], []⟩ "/other" (by decide)]
    rfl

/-- C10: construction is read-only on the filesystem. Constructing a
`CLIConfig` (with or without local-chain walking) and constructing a
`_ConfigFile` return the world unchanged — no directory is created, no file
is created or modified — and a missing config file yields an empty source
(`config_parser = None`) rather than being created. -/
theorem C10_construct_read_only (cd px fn : String) (ul : Bool) (cwd home : String)
    (w : World) (d p : String) :
    (CLIConfig.construct cd px fn ul cwd home w).2 = w
    ∧ (ConfigFile.construct w d p).2 = w
    ∧ (w.readFile p = none → (ConfigFile.construct w d p).1.config_store = none) := by
  refine ⟨CLIConfig.construct_preserves_world cd px fn ul cwd home w,
    ConfigFile.construct_world w d p, ?_⟩
  intro hnone
  have hfalse : w.pathExists p = false := by
    unfold World.pathExists
    unfold World.readFile at hnone
    rw [hnone]
    rfl
  unfold ConfigFile.construct
  rw [if_neg (by rw [hfalse]; exact Bool.false_ne_true)]

theorem C10_construct_read_only_witness :
    World.readFile ⟨[("/y/config", [])], ["/z"]⟩ "/x/config" = none
    ∧ (CLIConfig.construct "" "" "" true "/a/b" "/home/u"
        ⟨[("/y/config", [])], ["/z"]⟩).2 = ⟨[("/y/config", [])], ["/z"]⟩
    ∧ (ConfigFile.construct ⟨[("/y/config", [])], ["/z"]⟩ "/x" "/x/config").1.config_store
        = none :=
  ⟨rfl,
   (C10_construct_read_only "" "" "" true "/a/b" "/home/u"
      ⟨[("/y/config", [])], ["/z"]⟩ "/x" "/x/config").1,
   (C10_construct_read_only "" "" "" true "/a/b" "/home/u"
      ⟨[("/y/config", [])], ["/z"]⟩ "/x" "/x/config").2.2 rfl⟩

theorem alookup_isSome_iff_mem (k : String) (d : List (String × α)) :
    (alookup k d).isSome = true ↔ k ∈ d.map Prod.fst := by
  induction d with
  | nil => simp [alookup]
  | cons a rest ih =>
    obtain ⟨k', v'⟩ := a
    unfold alookup
    by_cases hq : k' = k
    · subst hq
      simp
    · rw [if_neg hq, List.map_cons]
      constructor
      · intro h
        exact List.mem_cons_of_mem _ (ih.1 h)
      · intro h
        rcases List.mem_cons.1 h with h1 | h2
        · exact absurd h1.symm hq
        · exact ih.2 h2

theorem keys_dictInsert_isSome (k : String) (v : α) (d : List (String × α))
    (h : (alookup k d).isSome = true) :
    (dictInsert d k v).map Prod.fst = d.map Prod.fst := by
  unfold dictInsert
  rw [if_pos h, List.map_map]
  apply List.map_congr_left
  intro p _
  by_cases hp : p.1 = k
  · simp only [Function.comp_apply, if_pos hp]
    exact hp.symm
  · simp only [Function.comp_apply, if_neg hp]

theorem keys_dictInsert_none (k : String) (v : α) (d : List (String × α))
    (h : ¬(alookup k d).isSome = true) :
    (dictInsert d k v).map Prod.fst = d.map Prod.fst ++ [k] := by
  unfold dictInsert
  rw [if_neg h, List.map_append]
  rfl

theorem mem_keys_dictInsert_of_mem (q k : String) (v : α) (d : List (String × α))
    (h : q ∈ d.map Prod.fst) : q ∈ (dictInsert d k v).map Prod.fst := by
  by_cases hk : (alookup k d).isSome = true
  · rw [keys_dictInsert_isSome k v d hk]
    exact h
  · rw [keys_dictInsert_none k v d hk]
    exact List.mem_append_left _ h

theorem mem_keys_dictInsert_self (k : String) (v : α) (d : List (String × α)) :
    k ∈ (dictInsert d k v).map Prod.fst := by
  by_cases hk : (alookup k d).isSome = true
  · rw [keys_dictInsert_isSome k v d hk]
    exact (alookup_isSome_iff_mem k d).1 hk
  · rw [keys_dictInsert_none k v d hk]
    exact List.mem_append_right _ (List.mem_singleton.2 rfl)

theorem nodup_keys_dictInsert (k : String) (v : α) (d : List (String × α))
    (h : (d.map Prod.fst).Nodup) : ((dictInsert d k v).map Prod.fst).Nodup := by
  by_cases hk : (alookup k d).isSome = true
  · rw [keys_dictInsert_isSome k v d hk]
    exact h
  · rw [keys_dictInsert_none k v d hk]
    have hnm : k ∉ d.map Prod.fst := fun hm => hk ((alookup_isSome_iff_mem k d).2 hm)
    simp [List.nodup_append, h, hnm]

theorem dictInsert_forall (P : String × α → Prop) (d : List (String × α)) (k : String) (v : α)
    (hd : ∀ pr ∈ d, P pr) (hv : P (k, v)) : ∀ pr ∈ dictInsert d k v, P pr := by
  intro pr hpr
  unfold dictInsert at hpr
  by_cases hk : (alookup k d).isSome = true
  · rw [if_pos hk] at hpr
    obtain ⟨p0, hp0, heq⟩ := List.mem_map.1 hpr
    by_cases hc : p0.1 = k
    · rw [if_pos hc] at heq
      exact heq ▸ hv
    · rw [if_neg hc] at heq
      exact heq ▸ hd p0 hp0
  · rw [if_neg hk] at hpr
    rcases List.mem_append.1 hpr with h1 | h2
    · exact hd pr h1
    · rw [List.mem_singleton.1 h2]
      exact hv

theorem foldl_dictInsert_forall (P : String × (String × β) → Prop)
    (cnds : List (String × β)) (hc : ∀ cnd ∈ cnds, P (cnd.1, cnd)) :
    ∀ d, (∀ pr ∈ d, P pr) →
      ∀ pr ∈ cnds.foldl (fun d cnd => dictInsert d cnd.1 cnd) d, P pr := by
  induction cnds with
  | nil => intro d hd; exact hd
  | cons cnd rest ih =>
    intro d hd
    exact ih (fun c hcc => hc c (List.mem_cons_of_mem _ hcc)) _
      (dictInsert_forall P d cnd.1 cnd hd (hc cnd (List.mem_cons_self _ _)))

theorem foldl_dictInsert_nodup (cnds : List (String × β)) :
    ∀ d : List (String × (String × β)), ((d.map Prod.fst).Nodup) →
      (((cnds.foldl (fun d cnd => dictInsert d cnd.1 cnd) d).map Prod.fst)).Nodup := by
  induction cnds with
  | nil => intro d h; exact h
  | cons cnd rest ih =>
    intro d h
    exact ih _ (nodup_keys_dictInsert _ _ _ h)

theorem foldl_dictInsert_mem_keys (cnds : List (String × β)) :
    ∀ (d : List (String × (String × β))) (q : String), q ∈ d.map Prod.fst →
      q ∈ (cnds.foldl (fun d c => dictInsert d c.1 c) d).map Prod.fst := by
  induction cnds with
  | nil => intro d q h; exact h
  | cons cnd rest ih =>
    intro d q h
    exact ih _ q (mem_keys_dictInsert_of_mem q _ _ d h)

theorem foldl_dictInsert_key_mem (cnds : List (String × β)) :
    ∀ (d : List (String × (String × β))) (cnd : String × β), cnd ∈ cnds →
      cnd.1 ∈ (cnds.foldl (fun d c => dictInsert d c.1 c) d).map Prod.fst := by
  induction cnds with
  | nil =>
    intro d cnd h
    cases h
  | cons c0 rest ih =>
    intro d cnd h
    rcases List.mem_cons.1 h with rfl | h2
    · exact foldl_dictInsert_mem_keys rest _ cnd.1 (mem_keys_dictInsert_self cnd.1 cnd d)
    · exact ih _ cnd h2

theorem entriesFold_shape (path : String) (entries : List (String × String)) :
    ∀ d : List (String × (String × String × String)),
      ∃ t, entries.foldl (fun d2 nv => if (alookup nv.1 d2).isSome then d2
          else d2 ++ [(nv.1, (nv.1, nv.2, path))]) d = d ++ t
        ∧ ∀ pr ∈ t, pr.1 ∉ d.map Prod.fst ∧ pr.2.1 = pr.1 ∧ pr.2.2.2 = path := by
  induction entries with
  | nil =>
    intro d
    exact ⟨[], (List.append_nil d).symm, by simp⟩
  | cons nv rest ih =>
    intro d
    by_cases hk : (alookup nv.1 d).isSome = true
    · obtain ⟨t, ht1, ht2⟩ := ih d
      refine ⟨t, ?_, ht2⟩
      rw [List.foldl_cons, if_pos hk]
      exact ht1
    · obtain ⟨t', ht1, ht2⟩ := ih (d ++ [(nv.1, (nv.1, nv.2, path))])
      refine ⟨(nv.1, (nv.1, nv.2, path)) :: t', ?_, ?_⟩
      · rw [List.foldl_cons, if_neg hk, ht1, List.append_assoc]
        rfl
      · intro pr hpr
        rcases List.mem_cons.1 hpr with rfl | h2
        · exact ⟨fun hm => hk ((alookup_isSome_iff_mem _ d).2 hm), rfl, rfl⟩
        · obtain ⟨hna, hb, hc⟩ := ht2 pr h2
          refine ⟨fun hm => hna ?_, hb, hc⟩
          rw [List.map_append]
          exact List.mem_append_left _ hm

theorem itemsAddFile_shape (sec : String) (cf : ConfigFile)
    (d : List (String × (String × String × String))) :
    ∃ t, itemsAddFile sec d cf = d ++ t
      ∧ ∀ pr ∈ t, pr.1 ∉ d.map Prod.fst ∧ pr.2.1 = pr.1 ∧ pr.2.2.2 = cf.config_path := by
  unfold itemsAddFile
  cases h : cf.items sec with
  | error e => exact ⟨[], (List.append_nil d).symm, by simp⟩
  | ok entries => exact entriesFold_shape cf.config_path entries d

theorem filePhase_shape (sec : String) (chain : List ConfigFile) :
    ∀ d, ∃ t, chain.foldl (itemsAddFile sec) d = d ++ t
      ∧ ∀ pr ∈ t, pr.1 ∉ d.map Prod.fst ∧ pr.2.1 = pr.1
          ∧ ∃ cf ∈ chain, pr.2.2.2 = cf.config_path := by
  induction chain with
  | nil =>
    intro d
    exact ⟨[], (List.append_nil d).symm, by simp⟩
  | cons cf rest ih =>
    intro d
    obtain ⟨t1, h11, h12⟩ := itemsAddFile_shape sec cf d
    obtain ⟨t2, h21, h22⟩ := ih (itemsAddFile sec d cf)
    refine ⟨t1 ++ t2, ?_, ?_⟩
    · rw [List.foldl_cons, h21, h11, List.append_assoc]
    · intro pr hpr
      rcases List.mem_append.1 hpr with h1 | h2
      · obtain ⟨hna, hb, hc⟩ := h12 pr h1
        exact ⟨hna, hb, cf, List.mem_cons_self _ _, hc⟩
      · obtain ⟨hna, hb, cf2, hcf2, hc⟩ := h22 pr h2
        refine ⟨fun hm => hna ?_, hb, cf2, List.mem_cons_of_mem _ hcf2, hc⟩
        rw [h11, List.map_append]
        exact List.mem_append_left _ hm

theorem entriesFold_nodup (path : String) (entries : List (String × String)) :
    ∀ d : List (String × (String × String × String)), ((d.map Prod.fst).Nodup) →
      (((entries.foldl (fun d2 nv => if (alookup nv.1 d2).isSome then d2
          else d2 ++ [(nv.1, (nv.1, nv.2, path))]) d).map Prod.fst)).Nodup := by
  induction entries with
  | nil => intro d h; exact h
  | cons nv rest ih =>
    intro d h
    rw [List.foldl_cons]
    by_cases hk : (alookup nv.1 d).isSome = true
    · rw [if_pos hk]
      exact ih d h
    · rw [if_neg hk]
      apply ih
      rw [List.map_append]
      have hnm : nv.1 ∉ d.map Prod.fst := fun hm => hk ((alookup_isSome_iff_mem _ d).2 hm)
      simp [List.nodup_append, h, hnm]

theorem itemsAddFile_nodup (sec : String) (cf : ConfigFile)
    (d : List (String × (String × String × String))) (h : (d.map Prod.fst).Nodup) :
    ((itemsAddFile sec d cf).map Prod.fst).Nodup := by
  unfold itemsAddFile
  cases hi : cf.items sec with
  | error e => exact h
  | ok entries => exact entriesFold_nodup cf.config_path entries d h

theorem filePhase_nodup (sec : String) (chain : List ConfigFile) :
    ∀ d, ((d.map Prod.fst).Nodup) →
      (((chain.foldl (itemsAddFile sec) d).map Prod.fst)).Nodup := by
  induction chain with
  | nil => intro d h; exact h
  | cons cf rest ih =>
    intro d h
    rw [List.foldl_cons]
    exact ih _ (itemsAddFile_nodup sec cf d h)

/-- C9: `items(section)` never emits two entries with the same name; the
result is the environment-derived entries (option name = trailing
underscore segment, source = the environment variable name) followed by
file entries whose names were not already recorded and whose source is a
chain entry's file path; and any name that has a matching environment
candidate is emitted with an environment variable name as its source, never
a file path. -/
theorem C9_items_merge (c : CLIConfig) (env : Env) (sec : String) :
    ((c.items env sec).map ItemEntry.name).Nodup
    ∧ (∃ tl, c.items env sec = c.envItems env sec ++ tl
        ∧ ∀ e ∈ tl, (∃ cf ∈ c.config_file_chain, e.source = cf.config_path)
            ∧ e.name ∉ (c.envItems env sec).map ItemEntry.name)
    ∧ (∀ e ∈ c.items env sec,
        e.name ∈ (c.envCandidates env sec).map (fun cnd => cnd.1) →
        e.source ∈ c.matchingEnvKeys env sec) := by
  have hnkD : ∀ pr ∈ c.envDict env sec, pr.2.1 = pr.1 :=
    foldl_dictInsert_forall (fun pr => pr.2.1 = pr.1) (c.envCandidates env sec)
      (fun cnd _ => rfl) [] (by simp)
  have hndD : ((c.envDict env sec).map Prod.fst).Nodup :=
    foldl_dictInsert_nodup (c.envCandidates env sec) [] (by simp)
  have hsrcC : ∀ cnd ∈ c.envCandidates env sec, cnd.2.2 ∈ c.matchingEnvKeys env sec := by
    intro cnd hcnd
    unfold CLIConfig.envCandidates at hcnd
    obtain ⟨k, hk, rfl⟩ := List.mem_map.1 hcnd
    exact hk
  have hsrcD : ∀ pr ∈ c.envDict env sec, pr.2.2.2 ∈ c.matchingEnvKeys env sec :=
    foldl_dictInsert_forall
      (fun pr : String × (String × String × String) => pr.2.2.2 ∈ c.matchingEnvKeys env sec)
      (c.envCandidates env sec) (fun cnd hcnd => hsrcC cnd hcnd) [] (by simp)
  have hcand : ∀ cnd ∈ c.envCandidates env sec, cnd.1 ∈ (c.envDict env sec).map Prod.fst :=
    fun cnd hcnd => foldl_dictInsert_key_mem (c.envCandidates env sec) [] cnd hcnd
  obtain ⟨t, hF, ht⟩ := filePhase_shape sec c.config_file_chain (c.envDict env sec)
  have hnkF : ∀ pr ∈ c.config_file_chain.foldl (itemsAddFile sec) (c.envDict env sec),
      pr.2.1 = pr.1 := by
    intro pr hpr
    rw [hF] at hpr
    rcases List.mem_append.1 hpr with h1 | h2
    · exact hnkD pr h1
    · exact (ht pr h2).2.1
  have hndF := filePhase_nodup sec c.config_file_chain (c.envDict env sec) hndD
  have hitems : c.items env sec =
      (c.config_file_chain.foldl (itemsAddFile sec) (c.envDict env sec)).map entryOf := rfl
  have henvnames : (c.envItems env sec).map ItemEntry.name =
      (c.envDict env sec).map Prod.fst := by
    unfold CLIConfig.envItems
    rw [List.map_map]
    exact List.map_congr_left (fun pr hpr => hnkD pr hpr)
  refine ⟨?_, ?_, ?_⟩
  · rw [hitems, List.map_map]
    have hmap : (c.config_file_chain.foldl (itemsAddFile sec) (c.envDict env sec)).map
        (ItemEntry.name ∘ entryOf) = (c.config_file_chain.foldl (itemsAddFile sec)
        (c.envDict env sec)).map Prod.fst :=
      List.map_congr_left (fun pr hpr => hnkF pr hpr)
    rw [hmap]
    exact hndF
  · refine ⟨t.map entryOf, ?_, ?_⟩
    · rw [hitems, hF, List.map_append]
      rfl
    · intro e he
      obtain ⟨pr, hpr, rfl⟩ := List.mem_map.1 he
      obtain ⟨hna, hnk, cf, hcf, hsrc⟩ := ht pr hpr
      refine ⟨⟨cf, hcf, hsrc⟩, ?_⟩
      rw [henvnames]
      intro hmem
      apply hna
      have hmem2 : pr.2.1 ∈ (c.envDict env sec).map Prod.fst := hmem
      rw [hnk] at hmem2
      exact hmem2
  · intro e he hm
    obtain ⟨pr, hpr, rfl⟩ := List.mem_map.1 (hitems ▸ he)
    obtain ⟨cnd, hcnd, hceq⟩ := List.mem_map.1 hm
    have hkey : pr.2.1 ∈ (c.envDict env sec).map Prod.fst := by
      have h0 := hcand cnd hcnd
      have hceq2 : cnd.1 = pr.2.1 := hceq
      rw [hceq2] at h0
      exact h0
    rw [hF] at hpr
    rcases List.mem_append.1 hpr with h1 | h2
    · exact hsrcD pr h1
    · exfalso
      obtain ⟨hna, hnk, -⟩ := ht pr h2
      rw [hnk] at hkey
      exact hna hkey

theorem C9_items_merge_witness :
    ("CLI_core_output" : String) ∈ CLIConfig.matchingEnvKeys ⟨"CLI_", "/d", [],
        [⟨"/d", "/d/config", some [("core", [("output", "table")])]⟩]⟩
        [("CLI_core_output", "json")] "core" :=
  (C9_items_merge ⟨"CLI_", "/d", [], [⟨"/d", "/d/config",
      some [("core", [("output", "table")])]⟩]⟩ [("CLI_core_output", "json")] "core").2.2
    ⟨"output", "json", "CLI_core_output"⟩ (by decide) (by decide)
